import Mathlib

/-!
Verification of the linear-algebra kernel of a small ray tracer
(tuple algebra, matrix algebra, pixel canvas with PPM serialization).

The Rust source stores `f32` components.  The embedding uses exact
rationals (`ℚ`) for the structural and algebraic claims: on every
concrete input appearing below the `f32` computation of the source is
exact (no rounding occurs), so the rational model agrees with the code
there.  The claims that hinge on IEEE-754 special values (NaN/Infinity
propagation in `normalize`) use a separate scalar model `F32` that
carries the special values explicitly; finite arithmetic in that model
is exact rational arithmetic (rounding and overflow are not modelled,
none of the facts proved below depend on them).
-/

/-- `f32::EPSILON` = 2⁻²³, as an exact rational. -/
def f32_epsilon : ℚ := 1 / 8388608

/-- Embedding of `tuple.rs` / `vec.rs`: `pub struct Tuple(pub f32, pub f32, pub f32, pub f32);`
Field `x` is component `.0`, `y` is `.1`, `z` is `.2`, `w` is `.3`. -/
structure Tuple where
  x : ℚ
  y : ℚ
  z : ℚ
  w : ℚ
deriving DecidableEq, Repr

namespace Tuple

/-- `Tuple::point(x, y, z)` — sets `w = 1.0`. -/
def point (x y z : ℚ) : Tuple := ⟨x, y, z, 1⟩

/-- `Tuple::vector(x, y, z)` — sets `w = 0.0`. -/
def vector (x y z : ℚ) : Tuple := ⟨x, y, z, 0⟩

/-- `Tuple::color(r, g, b)` — sets `w = 1.0`. -/
def color (r g b : ℚ) : Tuple := ⟨r, g, b, 1⟩

/-- `tuple.rs`: `is_point` — `(self.3 - 1.0).abs() < f32::EPSILON`.
On `f32` inputs the subtraction `w - 1.0` is exact whenever
`0.5 ≤ w ≤ 2` (Sterbenz), and for `w` outside that range `|w - 1| ≥ 1/2`
on both sides of the comparison, so the exact-rational reading of the
predicate agrees with the `f32` computation on all finite inputs. -/
def is_point (t : Tuple) : Bool := |t.w - 1| < f32_epsilon

/-- `tuple.rs`: `is_vector` — `self.3 == 0.0` (exact comparison). -/
def is_vector (t : Tuple) : Bool := t.w == 0

/-- `impl ops::Add for Tuple`: component-wise addition. -/
def add (a b : Tuple) : Tuple := ⟨a.x + b.x, a.y + b.y, a.z + b.z, a.w + b.w⟩

/-- `impl ops::Sub for Tuple`: component-wise subtraction. -/
def sub (a b : Tuple) : Tuple := ⟨a.x - b.x, a.y - b.y, a.z - b.z, a.w - b.w⟩

/-- `impl ops::Neg for Tuple`: component-wise negation. -/
def neg (a : Tuple) : Tuple := ⟨-a.x, -a.y, -a.z, -a.w⟩

/-- `Tuple::dot`: full 4-component inner product. -/
def dot (a b : Tuple) : ℚ := a.x * b.x + a.y * b.y + a.z * b.z + a.w * b.w

/-- `Tuple::cross`: first three components only, result wrapped with
`Self::vector` (so `w = 0`). -/
def cross (a b : Tuple) : Tuple :=
  vector (a.y * b.z - a.z * b.y) (a.z * b.x - a.x * b.z) (a.x * b.y - a.y * b.x)

/-- `Tuple::hadamard`: component-wise product of all four components. -/
def hadamard (a b : Tuple) : Tuple := ⟨a.x * b.x, a.y * b.y, a.z * b.z, a.w * b.w⟩

end Tuple

namespace Vec

/-- `vec.rs` variant of `is_point` — `self.3 == 1.0` (exact comparison,
no epsilon tolerance, unlike the `tuple.rs` variant). -/
def is_point (t : Tuple) : Bool := t.w == 1

/-- `vec.rs` variant of `is_vector` — `self.3 == 0.0` (identical to the
`tuple.rs` variant). -/
def is_vector (t : Tuple) : Bool := t.w == 0

end Vec

/-- C5: in the `tuple.rs` variant, `is_point` is true iff `|w - 1| < f32::EPSILON`
and `is_vector` is true iff `w == 0` exactly — the tolerant/exact asymmetry holds.
In the `vec.rs` variant `is_point` is the exact comparison `w == 1` instead, so
the epsilon-tolerance part of the claim holds only for `tuple.rs`. -/
theorem C5_is_point_epsilon_is_vector_exact (t : Tuple) :
    (t.is_point = true ↔ |t.w - 1| < f32_epsilon) ∧
    (t.is_vector = true ↔ t.w = 0) ∧
    (Vec.is_point t = true ↔ t.w = 1) ∧
    (Vec.is_vector t = true ↔ t.w = 0) := by
  refine ⟨?_, ?_, ?_, ?_⟩ <;>
    simp [Tuple.is_point, Tuple.is_vector, Vec.is_point, Vec.is_vector, decide_eq_true_iff]

/-- C5 counterexample: the claim as stated is false for the `vec.rs` variant —
at `w = 1 - 2⁻²⁴` we have `|w - 1| = 2⁻²⁴ < f32::EPSILON = 2⁻²³`, yet
`vec.rs`'s `is_point` returns `false` because it compares `w == 1.0` exactly. -/
theorem C5_counterexample :
    ¬ (Vec.is_point (Tuple.mk 0 0 0 (1 - 1/16777216)) = true ↔
        |(1 - 1/16777216 : ℚ) - 1| < f32_epsilon) := by
  intro h
  have hb : Vec.is_point (Tuple.mk 0 0 0 (1 - 1/16777216)) = true := by
    rw [h, f32_epsilon]
    have habs : (1 - 1/16777216 - 1 : ℚ) = -(1/16777216) := by ring
    rw [habs, abs_neg, abs_of_pos (show (0:ℚ) < 1/16777216 by norm_num)]
    norm_num
  simp only [Vec.is_point, beq_iff_eq] at hb
  norm_num at hb

/-- C7: the cross product is anti-commutative — `cross(a,b) == -cross(b,a)` —
and always returns a vector (`w = 0`), for all tuples `a`, `b`. -/
theorem C7_cross_anticommutative (a b : Tuple) :
    a.cross b = (b.cross a).neg ∧ (a.cross b).w = 0 := by
  cases a with
  | mk ax ay az aw =>
    cases b with
    | mk bx bby bz bw =>
      refine ⟨?_, rfl⟩
      simp only [Tuple.cross, Tuple.vector, Tuple.neg, Tuple.mk.injEq]
      refine ⟨by ring, by ring, by ring, by norm_num⟩

/-! ## Canvas (`canvas.rs`) -/

/-- Embedding of `canvas.rs`:
`pub struct Canvas { width: usize, height: usize, pixels: Vec<Vec<Tuple>> }`.
`pixels` is a list of rows (outer index `y`), each row a list of pixels
(inner index `x`). -/
structure Canvas where
  width : Nat
  height : Nat
  pixels : List (List Tuple)

namespace Canvas

/-- `Canvas::new` — `vec![vec![Tuple::color(0., 0., 0.); width]; height]`. -/
def new (width height : Nat) : Canvas :=
  ⟨width, height, List.replicate height (List.replicate width (Tuple.color 0 0 0))⟩

/-- `Canvas::get_width`. -/
def get_width (c : Canvas) : Nat := c.width

/-- `Canvas::get_height`. -/
def get_height (c : Canvas) : Nat := c.height

/-- `Canvas::get_pixel_at` — note that the source attaches the message
naming `x` to the *row* lookup (indexed by `y`) and the message naming
`y` to the *column* lookup (indexed by `x`):
`self.pixels.get(y).ok_or(format!("x {} does not exist", x))?
  .get(x).ok_or(format!("y {} does not exist", y))?`. -/
def get_pixel_at (c : Canvas) (x y : Nat) : Except String Tuple :=
  match c.pixels[y]? with
  | none => .error ("x " ++ toString x ++ " does not exist")
  | some row =>
    match row[x]? with
    | none => .error ("y " ++ toString y ++ " does not exist")
    | some color => .ok color

/-- `Canvas::write_pixel_at` — the Rust method mutates through `&mut self`
and returns a `Result<(), String>`; the embedding returns the result
together with the state of the canvas after the call.  Both range checks
precede the assignment `self.pixels[y][x] = color`. -/
def write_pixel_at (c : Canvas) (x y : Nat) (color : Tuple) :
    Except String Unit × Canvas :=
  if x ≥ c.width then (.error ("x " ++ toString x ++ " out of range"), c)
  else if y ≥ c.height then (.error ("y " ++ toString y ++ " out of range"), c)
  else (.ok (), { c with pixels := c.pixels.set y ((c.pixels.getD y []).set x color) })

/-- The representation invariant maintained by `new` and `write_pixel_at`:
one row per `y < height`, each of length `width` (in Rust, indexing
relies on it). -/
def Wf (c : Canvas) : Prop :=
  c.pixels.length = c.height ∧ ∀ row ∈ c.pixels, row.length = c.width

/-- `Canvas::new` establishes the representation invariant. -/
theorem wf_new (w h : Nat) : Wf (new w h) := by
  constructor
  · simp [new]
  · intro row hrow
    simp only [new, List.mem_replicate] at hrow
    simp [hrow.2, new]

end Canvas

/-- C1: the claim fails — `get_pixel_at` attaches the axis labels to the
wrong lookups.  On a 5×3 canvas, `get_pixel_at(5, 0)` (x out of range)
returns `Err("y 0 does not exist")`, naming axis `y` and reporting the
in-range coordinate `0` instead of the offending `x = 5`; only
`write_pixel_at` reports the correct axis (`Err("x 5 out of range")`). -/
theorem C1_error_messages_at_failing_input :
    Canvas.get_pixel_at (Canvas.new 5 3) 5 0 = .error "y 0 does not exist" ∧
    (Canvas.write_pixel_at (Canvas.new 5 3) 5 0 (Tuple.color 1 0 0)).1 =
      .error "x 5 out of range" := by
  exact ⟨rfl, rfl⟩

/-- C10: `write_pixel_at` is atomic on failure — whenever `x ≥ width` or
`y ≥ height` it returns an error and leaves the canvas exactly as it was,
because both range checks precede the mutation. -/
theorem C10_write_pixel_at_atomic_on_failure (c : Canvas) (x y : Nat) (col : Tuple)
    (h : x ≥ c.width ∨ y ≥ c.height) :
    (∃ msg, (Canvas.write_pixel_at c x y col).1 = .error msg) ∧
    (Canvas.write_pixel_at c x y col).2 = c := by
  unfold Canvas.write_pixel_at
  by_cases hx : x ≥ c.width
  · rw [if_pos hx]
    exact ⟨⟨_, rfl⟩, rfl⟩
  · have hy : y ≥ c.height := h.resolve_left hx
    rw [if_neg hx, if_pos hy]
    exact ⟨⟨_, rfl⟩, rfl⟩

/-- C10 witness: writing at `(7, 0)` on a 5×3 canvas errors and leaves the
canvas unchanged. -/
theorem C10_write_pixel_at_atomic_on_failure_witness :
    (∃ msg, (Canvas.write_pixel_at (Canvas.new 5 3) 7 0 (Tuple.color 1 0 0)).1 =
      .error msg) ∧
    (Canvas.write_pixel_at (Canvas.new 5 3) 7 0 (Tuple.color 1 0 0)).2 =
      Canvas.new 5 3 :=
  C10_write_pixel_at_atomic_on_failure (Canvas.new 5 3) 7 0 (Tuple.color 1 0 0)
    (Or.inl (by decide))

/-- Stepping lemma: `get_pixel_at` once the row lookup is resolved. -/
theorem Canvas.get_pixel_at_row (c : Canvas) {y : Nat} (x : Nat) {row : List Tuple}
    (h : c.pixels[y]? = some row) :
    c.get_pixel_at x y =
      match row[x]? with
      | none => .error ("y " ++ toString y ++ " does not exist")
      | some color => .ok color := by
  unfold Canvas.get_pixel_at
  rw [h]

/-- Stepping lemma: `get_pixel_at` when both lookups succeed. -/
theorem Canvas.get_pixel_at_ok (c : Canvas) {x y : Nat} {row : List Tuple} {p : Tuple}
    (h : c.pixels[y]? = some row) (h2 : row[x]? = some p) :
    c.get_pixel_at x y = .ok p := by
  rw [Canvas.get_pixel_at_row c x h, h2]

/-- C9: a freshly constructed `w×h` canvas reads back `(0,0,0)` at every
in-range pixel; a successful `write_pixel_at(x, y, col)` succeeds, reads
back exactly `col` at `(x, y)`, leaves every other in-range pixel
unchanged, and does not change the width or the height. -/
theorem C9_fresh_black_and_write_readback
    (w h a b : Nat) (ha : a < w) (hb : b < h)
    (c : Canvas) (hwf : c.Wf) (x y : Nat) (col : Tuple)
    (hx : x < c.width) (hy : y < c.height) :
    Canvas.get_pixel_at (Canvas.new w h) a b = .ok (Tuple.color 0 0 0) ∧
    (Canvas.write_pixel_at c x y col).1 = .ok () ∧
    Canvas.get_pixel_at (Canvas.write_pixel_at c x y col).2 x y = .ok col ∧
    (∀ u v, u < c.width → v < c.height → (u, v) ≠ (x, y) →
      Canvas.get_pixel_at (Canvas.write_pixel_at c x y col).2 u v =
        Canvas.get_pixel_at c u v) ∧
    (Canvas.write_pixel_at c x y col).2.width = c.width ∧
    (Canvas.write_pixel_at c x y col).2.height = c.height := by
  obtain ⟨hlen, hrows⟩ := hwf
  have hnx : ¬ x ≥ c.width := not_le.mpr hx
  have hny : ¬ y ≥ c.height := not_le.mpr hy
  have hylen : y < c.pixels.length := by rw [hlen]; exact hy
  have hgetD : c.pixels.getD y [] = c.pixels[y] := List.getD_eq_getElem _ _ hylen
  have hrowlen : (c.pixels.getD y []).length = c.width := by
    rw [hgetD]
    exact hrows _ (List.getElem_mem hylen)
  refine ⟨?_, ?_, ?_, ?_, ?_, ?_⟩
  · simp [Canvas.get_pixel_at, Canvas.new, List.getElem?_replicate, ha, hb]
  · simp [Canvas.write_pixel_at, if_neg hnx, if_neg hny]
  · simp only [Canvas.write_pixel_at, if_neg hnx, if_neg hny]
    exact Canvas.get_pixel_at_ok _
      (List.getElem?_set_eq_of_lt _ hylen)
      (List.getElem?_set_eq_of_lt _ (by rw [hrowlen]; exact hx))
  · intro u v hu hv hne
    simp only [Canvas.write_pixel_at, if_neg hnx, if_neg hny]
    by_cases hyv : y = v
    · subst hyv
      have hxu : x ≠ u := by
        intro hcontra
        exact hne (by rw [hcontra])
      have hvlen : y < c.pixels.length := hylen
      rw [Canvas.get_pixel_at_row _ u (List.getElem?_set_eq_of_lt _ hvlen)]
      rw [Canvas.get_pixel_at_row _ u (List.getElem?_eq_getElem hvlen)]
      rw [List.getElem?_set_ne hxu, hgetD]
    · have hvlen : v < c.pixels.length := by rw [hlen]; exact hv
      rw [Canvas.get_pixel_at_row _ u
        (by rw [List.getElem?_set_ne hyv]; exact List.getElem?_eq_getElem hvlen)]
      rw [Canvas.get_pixel_at_row _ u (List.getElem?_eq_getElem hvlen)]
  · simp [Canvas.write_pixel_at, if_neg hnx, if_neg hny]
  · simp [Canvas.write_pixel_at, if_neg hnx, if_neg hny]

/-- C9 witness: on a fresh 10×20 canvas, pixel `(0,0)` is black; writing
red at `(2,3)` succeeds, reads back red, and leaves everything else
unchanged. -/
theorem C9_fresh_black_and_write_readback_witness :
    Canvas.get_pixel_at (Canvas.new 10 20) 0 0 = .ok (Tuple.color 0 0 0) ∧
    (Canvas.write_pixel_at (Canvas.new 10 20) 2 3 (Tuple.color 1 0 0)).1 = .ok () ∧
    Canvas.get_pixel_at
      (Canvas.write_pixel_at (Canvas.new 10 20) 2 3 (Tuple.color 1 0 0)).2 2 3 =
      .ok (Tuple.color 1 0 0) ∧
    (∀ u v, u < (Canvas.new 10 20).width → v < (Canvas.new 10 20).height →
      (u, v) ≠ (2, 3) →
      Canvas.get_pixel_at
        (Canvas.write_pixel_at (Canvas.new 10 20) 2 3 (Tuple.color 1 0 0)).2 u v =
        Canvas.get_pixel_at (Canvas.new 10 20) u v) ∧
    (Canvas.write_pixel_at (Canvas.new 10 20) 2 3 (Tuple.color 1 0 0)).2.width =
      (Canvas.new 10 20).width ∧
    (Canvas.write_pixel_at (Canvas.new 10 20) 2 3 (Tuple.color 1 0 0)).2.height =
      (Canvas.new 10 20).height :=
  C9_fresh_black_and_write_readback 10 20 0 0 (by decide) (by decide)
    (Canvas.new 10 20) (Canvas.wf_new 10 20) 2 3 (Tuple.color 1 0 0)
    (by decide) (by decide)

/-! ## PPM serialization (`Canvas::to_ppm_string`) -/

/-- Rust `f32::clamp(self, min, max)`: `min` if `self < min`, `max` if
`self > max`, otherwise `self`. -/
def clampQ (x lo hi : ℚ) : ℚ := if x < lo then lo else if x > hi then hi else x

/-- Rust `f32::round`: round half away from zero. -/
def roundHalfAway (q : ℚ) : ℤ := if q ≥ 0 then ⌊q + 1/2⌋ else -⌊-q + 1/2⌋

/-- One serialized channel: `(channel * 255.).clamp(0., 255.).round()`.
The rounded value is integral, and for integral values Rust's `Display`
for `f32` prints the bare integer, which `toString : ℤ → String`
reproduces. -/
def channelValue (c : ℚ) : ℤ := roundHalfAway (clampQ (c * 255) 0 255)

/-- One pixel of output: `format!("{} {} {} ", red, green, blue)` —
note the trailing space. -/
def pixelString (p : Tuple) : String :=
  toString (channelValue p.x) ++ " " ++ toString (channelValue p.y) ++ " " ++
    toString (channelValue p.z) ++ " "

namespace Canvas

/-- `Canvas::to_ppm_string`: starts from the header
`format!("P3\n{} {}\n255\n", width, height)` and pushes, row by row
(top to bottom) and pixel by pixel (left to right), each pixel's channel
string followed by one newline per row. -/
def to_ppm_string (c : Canvas) : String :=
  c.pixels.foldl
    (fun ppm row => row.foldl (fun acc p => acc ++ pixelString p) ppm ++ "\n")
    ("P3\n" ++ toString c.width ++ " " ++ toString c.height ++ "\n255\n")

/-- The PPM output as the spec describes it (§6): the header followed by
the concatenation, top to bottom, of one line per row, each line the
left-to-right concatenation of the pixel strings followed by a newline. -/
def ppm_spec (c : Canvas) : String :=
  "P3\n" ++ toString c.width ++ " " ++ toString c.height ++ "\n255\n" ++
    String.join (c.pixels.map (fun row => String.join (row.map pixelString) ++ "\n"))

end Canvas

theorem string_foldl_append (l : List String) (acc : String) :
    l.foldl (fun a s => a ++ s) acc = acc ++ String.join l := by
  induction l generalizing acc with
  | nil => simp [String.join]
  | cons s l ih =>
    have hjoin : String.join (s :: l) = s ++ String.join l := by
      rw [show String.join (s :: l) = (s :: l).foldl (fun a t => a ++ t) "" from rfl]
      rw [List.foldl_cons, ih, String.empty_append]
    rw [List.foldl_cons, ih, hjoin, String.append_assoc]

theorem string_join_cons (s : String) (l : List String) :
    String.join (s :: l) = s ++ String.join l := by
  rw [show String.join (s :: l) = (s :: l).foldl (fun a t => a ++ t) "" from rfl]
  simp only [List.foldl_cons]
  rw [string_foldl_append, String.empty_append]

theorem pixel_row_foldl (row : List Tuple) (acc : String) :
    row.foldl (fun a p => a ++ pixelString p) acc =
      acc ++ String.join (row.map pixelString) := by
  rw [← List.foldl_map (f := pixelString) (g := fun a s => a ++ s)]
  exact string_foldl_append _ acc

theorem ppm_body_foldl (rows : List (List Tuple)) (acc : String) :
    rows.foldl
      (fun ppm row => row.foldl (fun a p => a ++ pixelString p) ppm ++ "\n") acc =
      acc ++ String.join
        (rows.map (fun row => String.join (row.map pixelString) ++ "\n")) := by
  induction rows generalizing acc with
  | nil => simp [String.join]
  | cons r rows ih =>
    rw [List.foldl_cons, pixel_row_foldl, ih, List.map_cons, string_join_cons]
    simp only [String.append_assoc]

theorem roundHalfAway_eq (q : ℚ) (n : ℤ) (h0 : 0 ≤ q) (h1 : (n : ℚ) ≤ q + 1/2)
    (h2 : q + 1/2 < (n : ℚ) + 1) : roundHalfAway q = n := by
  unfold roundHalfAway
  rw [if_pos h0, Int.floor_eq_iff]
  exact ⟨h1, h2⟩

theorem channelValue_zero : channelValue 0 = 0 := by
  have hc : clampQ (0 * 255) 0 255 = 0 * 255 := by unfold clampQ; norm_num
  unfold channelValue
  rw [hc]
  exact roundHalfAway_eq _ 0 (by norm_num) (by norm_num) (by norm_num)

theorem channelValue_one : channelValue 1 = 255 := by
  have hc : clampQ (1 * 255) 0 255 = 1 * 255 := by unfold clampQ; norm_num
  unfold channelValue
  rw [hc]
  exact roundHalfAway_eq _ 255 (by norm_num) (by norm_num) (by norm_num)

theorem channelValue_threeHalves : channelValue (3/2) = 255 := by
  have hc : clampQ (3/2 * 255) 0 255 = 255 := by unfold clampQ; norm_num
  unfold channelValue
  rw [hc]
  exact roundHalfAway_eq _ 255 (by norm_num) (by norm_num) (by norm_num)

theorem channelValue_half : channelValue (1/2) = 128 := by
  have hc : clampQ (1/2 * 255) 0 255 = 1/2 * 255 := by unfold clampQ; norm_num
  unfold channelValue
  rw [hc]
  exact roundHalfAway_eq _ 128 (by norm_num) (by norm_num) (by norm_num)

theorem channelValue_negHalf : channelValue (-(1/2)) = 0 := by
  have hc : clampQ (-(1/2) * 255) 0 255 = 0 := by unfold clampQ; norm_num
  unfold channelValue
  rw [hc]
  exact roundHalfAway_eq _ 0 (by norm_num) (by norm_num) (by norm_num)

theorem pixelString_black : pixelString (Tuple.color 0 0 0) = "0 0 0 " := by
  show toString (channelValue 0) ++ " " ++ toString (channelValue 0) ++ " " ++
    toString (channelValue 0) ++ " " = "0 0 0 "
  rw [channelValue_zero]
  rfl

theorem pixelString_red : pixelString (Tuple.color (3/2) 0 0) = "255 0 0 " := by
  show toString (channelValue (3/2)) ++ " " ++ toString (channelValue 0) ++ " " ++
    toString (channelValue 0) ++ " " = "255 0 0 "
  rw [channelValue_threeHalves, channelValue_zero]
  rfl

theorem pixelString_green : pixelString (Tuple.color 0 (1/2) 0) = "0 128 0 " := by
  show toString (channelValue 0) ++ " " ++ toString (channelValue (1/2)) ++ " " ++
    toString (channelValue 0) ++ " " = "0 128 0 "
  rw [channelValue_zero, channelValue_half]
  rfl

theorem pixelString_blue : pixelString (Tuple.color (-(1/2)) 0 1) = "0 0 255 " := by
  show toString (channelValue (-(1/2))) ++ " " ++ toString (channelValue 0) ++ " " ++
    toString (channelValue 1) ++ " " = "0 0 255 "
  rw [channelValue_negHalf, channelValue_zero, channelValue_one]
  rfl

/-- C4: `to_ppm_string` produces exactly the header
`P3\n<width> <height>\n255\n` followed by one line per row, rows top to
bottom and pixels left to right, each channel `clamp(channel*255, 0, 255)`
rounded to the nearest integer (half away from zero), space-separated
with a trailing space before each newline; on the spec's 5×3 example the
output is byte-for-byte the expected string. -/
theorem C4_to_ppm_format_and_example :
    (∀ c : Canvas, c.to_ppm_string = c.ppm_spec) ∧
    Canvas.to_ppm_string
      (Canvas.write_pixel_at
        (Canvas.write_pixel_at
          (Canvas.write_pixel_at (Canvas.new 5 3) 0 0 (Tuple.color (3/2) 0 0)).2
          2 1 (Tuple.color 0 (1/2) 0)).2
        4 2 (Tuple.color (-(1/2)) 0 1)).2 =
      "P3\n5 3\n255\n255 0 0 0 0 0 0 0 0 0 0 0 0 0 0 \n0 0 0 0 0 0 0 128 0 0 0 0 0 0 0 \n0 0 0 0 0 0 0 0 0 0 0 0 0 0 255 \n" := by
  constructor
  · intro c
    unfold Canvas.to_ppm_string Canvas.ppm_spec
    rw [ppm_body_foldl]
  · have hpix : (Canvas.write_pixel_at
        (Canvas.write_pixel_at
          (Canvas.write_pixel_at (Canvas.new 5 3) 0 0 (Tuple.color (3/2) 0 0)).2
          2 1 (Tuple.color 0 (1/2) 0)).2
        4 2 (Tuple.color (-(1/2)) 0 1)).2 =
      ⟨5, 3,
        [[Tuple.color (3/2) 0 0, Tuple.color 0 0 0, Tuple.color 0 0 0,
          Tuple.color 0 0 0, Tuple.color 0 0 0],
         [Tuple.color 0 0 0, Tuple.color 0 0 0, Tuple.color 0 (1/2) 0,
          Tuple.color 0 0 0, Tuple.color 0 0 0],
         [Tuple.color 0 0 0, Tuple.color 0 0 0, Tuple.color 0 0 0,
          Tuple.color 0 0 0, Tuple.color (-(1/2)) 0 1]]⟩ := rfl
    rw [hpix]
    simp only [Canvas.to_ppm_string, List.foldl_cons, List.foldl_nil,
      pixelString_red, pixelString_green, pixelString_blue, pixelString_black]
    rfl

/-! ## Matrix (`matrix.rs`) — in namespace `RT` because Mathlib already
has a root-level `Matrix`. -/

namespace RT

/-- Embedding of `matrix.rs`:
`pub struct Matrix { rows: usize, cols: usize, values: Vec<Vec<f32>>, transposed: bool }`.
`values` is the physical storage; `rows`/`cols` are the reported
(logical) shape. -/
structure Matrix where
  rows : Nat
  cols : Nat
  values : List (List ℚ)
  transposed : Bool

namespace Matrix

/-- `Matrix::new` — zero-filled `rows × cols` grid, not transposed. -/
def new (rows cols : Nat) : Matrix :=
  ⟨rows, cols, List.replicate rows (List.replicate cols 0), false⟩

/-- `Matrix::from_values` — `rows = values.len()`, `cols = values[0].len()`
(the source indexes `values[0]`, so it expects at least one row; the
embedding reads the first row's length with default `[]`). -/
def from_values (values : List (List ℚ)) : Matrix :=
  ⟨values.length, (values.headD []).length, values, false⟩

/-- `Matrix::get` — resolves the transpose flag: reads `values[row][col]`
when not transposed and `values[col][row]` when transposed.  The source
performs no bounds check here (out of range panics); the embedding
totalises with default `0`. -/
def get (m : Matrix) (row col : Nat) : ℚ :=
  if !m.transposed then (m.values.getD row []).getD col 0
  else (m.values.getD col []).getD row 0

/-- `Matrix::shape` — the reported `(rows, cols)`. -/
def shape (m : Matrix) : Nat × Nat := (m.rows, m.cols)

/-- `Matrix::transpose` — flips the flag and swaps the reported
`rows`/`cols`; the storage `values` is untouched.  The Rust method
mutates `&mut self`; the embedding returns the post-state. -/
def transpose (m : Matrix) : Matrix :=
  { m with transposed := !m.transposed, rows := m.cols, cols := m.rows }

/-- `Matrix::dot` — `res_shape = (self.rows, other.cols)`; for each
`i < res_shape.0`, `j < res_shape.1` accumulates
`sum += self.get(i, a) * other.get(a, j)` for `a` in `0..self.cols`,
then wraps the grid with `from_values`. -/
def dot (m other : Matrix) : Matrix :=
  from_values ((List.range m.rows).map (fun i =>
    (List.range other.cols).map (fun j =>
      (List.range m.cols).foldl (fun sum a => sum + m.get i a * other.get a j) 0)))

end Matrix

end RT

/-- The inner accumulation loop of `Matrix::dot` computes the
mathematical sum. -/
theorem foldl_range_add (f : Nat → ℚ) (n : Nat) :
    (List.range n).foldl (fun s a => s + f a) 0 = ∑ a ∈ Finset.range n, f a := by
  induction n with
  | zero => simp
  | succ n ih =>
    rw [List.range_succ, List.foldl_append, ih, List.foldl_cons, List.foldl_nil,
      Finset.sum_range_succ]

/-- C3: `transpose()` toggles the `transposed` flag, swaps the reported
`rows`/`cols`, moves no stored data (`values` is untouched), and applying
it twice restores the matrix exactly. -/
theorem C3_transpose_involution (m : RT.Matrix) :
    m.transpose.transposed = !m.transposed ∧
    m.transpose.rows = m.cols ∧
    m.transpose.cols = m.rows ∧
    m.transpose.values = m.values ∧
    m.transpose.transpose = m := by
  refine ⟨rfl, rfl, rfl, rfl, ?_⟩
  cases m
  simp [RT.Matrix.transpose]

/-- C2: for matrices of logical shape `(m, k)` and `(k, n)` (any transpose
flags), `dot` returns a fresh untransposed `(m, n)` matrix with
`result[i][j] = Σ_a self.get(i, a) * other.get(a, j)` for `a` in
`0..self.cols`, where `get` and the shapes are the logical
(post-transpose) ones. -/
theorem C2_dot_matrix_product (A B : RT.Matrix) (hm : 0 < A.rows)
    (hk : A.cols = B.rows) :
    (A.dot B).shape = (A.rows, B.cols) ∧
    (A.dot B).transposed = false ∧
    ∀ i < A.rows, ∀ j < B.cols,
      (A.dot B).get i j = ∑ a ∈ Finset.range A.cols, A.get i a * B.get a j := by
  refine ⟨?_, rfl, ?_⟩
  · obtain ⟨n, hn⟩ := Nat.exists_eq_succ_of_ne_zero (Nat.pos_iff_ne_zero.mp hm)
    simp only [RT.Matrix.dot, RT.Matrix.from_values, RT.Matrix.shape, hn,
      List.range_succ_eq_map, List.map_cons, List.headD_cons, List.length_cons,
      List.length_map, List.length_range, Prod.mk.injEq]
  · intro i hi j hj
    simp only [RT.Matrix.dot, RT.Matrix.from_values, RT.Matrix.get,
      Bool.not_false, if_true, List.getD_eq_getElem?_getD, List.getElem?_map,
      List.getElem?_range hi, List.getElem?_range hj, Option.map_some',
      Option.getD_some]
    exact foldl_range_add _ _

/-- C2 witness: the product formula instantiated on two concrete 2×2
matrices. -/
theorem C2_dot_matrix_product_witness :
    ((RT.Matrix.from_values [[1,2],[3,4]]).dot
        (RT.Matrix.from_values [[5,6],[7,8]])).shape =
      ((RT.Matrix.from_values [[1,2],[3,4]]).rows,
        (RT.Matrix.from_values [[5,6],[7,8]]).cols) ∧
    ((RT.Matrix.from_values [[1,2],[3,4]]).dot
        (RT.Matrix.from_values [[5,6],[7,8]])).transposed = false ∧
    ∀ i < (RT.Matrix.from_values [[1,2],[3,4]]).rows,
      ∀ j < (RT.Matrix.from_values [[5,6],[7,8]]).cols,
      ((RT.Matrix.from_values [[1,2],[3,4]]).dot
          (RT.Matrix.from_values [[5,6],[7,8]])).get i j =
        ∑ a ∈ Finset.range (RT.Matrix.from_values [[1,2],[3,4]]).cols,
          (RT.Matrix.from_values [[1,2],[3,4]]).get i a *
            (RT.Matrix.from_values [[5,6],[7,8]]).get a j :=
  C2_dot_matrix_product (RT.Matrix.from_values [[1,2],[3,4]])
    (RT.Matrix.from_values [[5,6],[7,8]]) (by decide) (by decide)

/-! ## An IEEE-special-value scalar model for `mag`/`normalize` (C6) -/

/-- Scalar model for `f32` carrying the IEEE-754 special values.  Finite
arithmetic is exact rational arithmetic (rounding, overflow and the sign
of zero are not modelled; no fact proved below depends on them).
Special-value rules follow IEEE 754. -/
inductive F32 where
  | fin (q : ℚ)
  | nan
  | inf
  | ninf
deriving DecidableEq, Repr

namespace F32

/-- Addition: NaN propagates; opposite infinities give NaN; finite
addition is exact. -/
def add : F32 → F32 → F32
  | nan, _ => nan
  | _, nan => nan
  | inf, ninf => nan
  | ninf, inf => nan
  | inf, _ => inf
  | _, inf => inf
  | ninf, _ => ninf
  | _, ninf => ninf
  | fin a, fin b => fin (a + b)

/-- Multiplication: NaN propagates; `±inf * 0 = NaN`; sign rules for
infinities; finite multiplication is exact. -/
def mul : F32 → F32 → F32
  | nan, _ => nan
  | _, nan => nan
  | inf, inf => inf
  | inf, ninf => ninf
  | ninf, inf => ninf
  | ninf, ninf => inf
  | inf, fin q => if q = 0 then nan else if q > 0 then inf else ninf
  | fin q, inf => if q = 0 then nan else if q > 0 then inf else ninf
  | ninf, fin q => if q = 0 then nan else if q > 0 then ninf else inf
  | fin q, ninf => if q = 0 then nan else if q > 0 then ninf else inf
  | fin a, fin b => fin (a * b)

/-- Division: NaN propagates; `0/0 = NaN`; a nonzero finite over zero is
a signed infinity; `inf/inf = NaN`; finite over infinite is zero; finite
division is exact. -/
def div : F32 → F32 → F32
  | nan, _ => nan
  | _, nan => nan
  | inf, inf => nan
  | inf, ninf => nan
  | ninf, inf => nan
  | ninf, ninf => nan
  | inf, fin q => if q ≥ 0 then inf else ninf
  | ninf, fin q => if q ≥ 0 then ninf else inf
  | fin _, inf => fin 0
  | fin _, ninf => fin 0
  | fin a, fin b =>
    if b = 0 then (if a = 0 then nan else if a > 0 then inf else ninf)
    else fin (a / b)

/-- Square root: `sqrt NaN = NaN`, `sqrt inf = inf`, `sqrt (-inf) = NaN`,
negative finite gives NaN; on a nonnegative rational the value is the
`Nat.sqrt`-based quotient, which is the exact square root whenever one
exists (in particular `sqrt 0 = 0`) — the facts proved below evaluate it
only there. -/
def sqrt : F32 → F32
  | nan => nan
  | inf => inf
  | ninf => nan
  | fin q =>
    if q < 0 then nan
    else fin ((Nat.sqrt q.num.toNat : ℚ) / (Nat.sqrt q.den : ℚ))

/-- `powf(x, 2.0)` as `mag` uses it: squaring. -/
def powTwo (x : F32) : F32 := mul x x

end F32

/-- The tuple over the `F32` scalar model, used for the claims about
`mag`/`normalize` (which hinge on unguarded division by zero). -/
structure TupleF where
  x : F32
  y : F32
  z : F32
  w : F32
deriving DecidableEq, Repr

namespace TupleF

/-- `Tuple::vector` over the model: `w = 0.0`. -/
def vector (x y z : F32) : TupleF := ⟨x, y, z, F32.fin 0⟩

/-- `Tuple::mag` —
`(self.0.powf(2.0) + self.1.powf(2.0) + self.2.powf(2.0)).sqrt()`;
the `w` component does not occur. -/
def mag (t : TupleF) : F32 :=
  F32.sqrt (F32.add (F32.add (F32.powTwo t.x) (F32.powTwo t.y)) (F32.powTwo t.z))

/-- `Tuple::normalize` — divides the three spatial components by `mag`
and re-wraps with `Self::vector`; there is no guard against a zero
magnitude. -/
def normalize (t : TupleF) : TupleF :=
  vector (F32.div t.x t.mag) (F32.div t.y t.mag) (F32.div t.z t.mag)

end TupleF

/-- C6: `normalize` divides the three spatial components by `mag`
(`mag = sqrt(x² + y² + z²)`, the `w` component never enters it) and sets
the result's `w` to `0` regardless of the input's `w`; at zero magnitude
no error is raised and NaN propagates into the result: normalizing the
zero vector yields `(NaN, NaN, NaN, 0)`. -/
theorem C6_normalize_definition_and_nan_propagation
    (t : TupleF) (x y z w w' : F32) :
    t.normalize = TupleF.mk (F32.div t.x t.mag) (F32.div t.y t.mag)
      (F32.div t.z t.mag) (F32.fin 0) ∧
    TupleF.mag ⟨x, y, z, w⟩ = TupleF.mag ⟨x, y, z, w'⟩ ∧
    TupleF.mag ⟨x, y, z, w⟩ =
      F32.sqrt (F32.add (F32.add (F32.mul x x) (F32.mul y y)) (F32.mul z z)) ∧
    TupleF.normalize ⟨F32.fin 0, F32.fin 0, F32.fin 0, F32.fin 1⟩ =
      ⟨F32.nan, F32.nan, F32.nan, F32.fin 0⟩ := by
  have hmag : TupleF.mag ⟨F32.fin 0, F32.fin 0, F32.fin 0, F32.fin 1⟩ = F32.fin 0 := by
    show F32.sqrt (F32.fin (0 * 0 + 0 * 0 + 0 * 0)) = F32.fin 0
    rw [show (0 * 0 + 0 * 0 + 0 * 0 : ℚ) = 0 by norm_num]
    show (if (0 : ℚ) < 0 then F32.nan
      else F32.fin ((Nat.sqrt (0 : ℚ).num.toNat : ℚ) / (Nat.sqrt (0 : ℚ).den : ℚ))) =
        F32.fin 0
    rw [if_neg (lt_irrefl (0 : ℚ))]
    norm_num
  have hdiv : F32.div (F32.fin 0) (F32.fin 0) = F32.nan := by
    show (if (0 : ℚ) = 0 then
        (if (0 : ℚ) = 0 then F32.nan else if (0 : ℚ) > 0 then F32.inf else F32.ninf)
      else F32.fin (0 / 0)) = F32.nan
    rw [if_pos rfl, if_pos rfl]
  refine ⟨rfl, rfl, rfl, ?_⟩
  show TupleF.vector
      (F32.div (F32.fin 0) (TupleF.mag ⟨F32.fin 0, F32.fin 0, F32.fin 0, F32.fin 1⟩))
      (F32.div (F32.fin 0) (TupleF.mag ⟨F32.fin 0, F32.fin 0, F32.fin 0, F32.fin 1⟩))
      (F32.div (F32.fin 0) (TupleF.mag ⟨F32.fin 0, F32.fin 0, F32.fin 0, F32.fin 1⟩)) =
    ⟨F32.nan, F32.nan, F32.nan, F32.fin 0⟩
  rw [hmag, hdiv]
  rfl
